import Mathlib

/-!
Verification of the kwdagger pipeline core (parameter-schema derivation,
node construction, port connection, cache-key hashing, matrix expansion,
and the job scheduler) against its natural-language specification.

The repository snapshot under review ships the package interface
(`kwdagger/__init__.py`), the test suite (`tests/test_processnode_params.py`)
and the documented example pipelines, but not `kwdagger/pipeline.py` or
`kwdagger/schedule.py` themselves.  The components below are therefore
modelled from the specification, with concrete behavior pinned by the
in-repository tests and examples wherever those exercise the missing code.
-/

namespace KwDagger

/-- Parameter values appearing in schema defaults and concrete bindings
(strings, integers, booleans, and the Python `None`). -/
inductive PValue where
  | vstr (s : String)
  | vint (n : Int)
  | vbool (b : Bool)
  | vnone
deriving DecidableEq, Repr

/-- An ordered string-keyed mapping, as the Python code uses `dict`s. -/
abbrev ParamMap := List (String × PValue)

/-- First-match association lookup, the semantics of Python `dict` access
over the ordered entry lists used here. -/
def assocLookup {α : Type} : List (String × α) → String → Option α
  | [], _ => none
  | (k, v) :: rest, key => if k = key then some v else assocLookup rest key

/-- Whether a key is present in a mapping. -/
def hasKey {α : Type} (m : List (String × α)) (k : String) : Bool :=
  (assocLookup m k).isSome

/-- Modelled from the spec: one field of a tagged scriptconfig schema
(`scfg.Value(default, tags=[...])`); an untagged plain default has `tags = []`.
The real schema class lives in `scriptconfig`, outside this repository. -/
structure SchemaField where
  name : String
  default : PValue
  tags : List String
deriving DecidableEq, Repr

/-- A tagged configuration schema is its ordered list of fields. -/
abbrev Schema := List SchemaField

/-- Tags that place a field in the input-path group
(`tests/test_processnode_params.py` uses both `in_path` and `in`). -/
def inputTagSet : List String := ["in_path", "in"]

/-- Tags that place a field in the output-path group; `primary` marks an
output field as the canonical artifact, so it is an output-category tag. -/
def outputTagSet : List String := ["out_path", "out", "primary"]

/-- Field carries some input-group tag. -/
def hasInputTag (f : SchemaField) : Bool :=
  f.tags.any (fun t => inputTagSet.contains t)

/-- Field carries some output-group tag. -/
def hasOutputTag (f : SchemaField) : Bool :=
  f.tags.any (fun t => outputTagSet.contains t)

/-- Field is tagged as the primary output. -/
def hasPrimaryTag (f : SchemaField) : Bool :=
  f.tags.contains "primary"

/-- Field is tagged as a performance parameter. -/
def hasPerfTag (f : SchemaField) : Bool :=
  f.tags.contains "perf_param"

/-- A field tagged with both an input-group tag and an output-group tag:
a definition error, mutually exclusive by category. -/
def conflictedField (f : SchemaField) : Bool :=
  hasInputTag f && hasOutputTag f

/-- The output-path fields of a schema. -/
def outFields (schema : Schema) : List SchemaField :=
  schema.filter hasOutputTag

/-- The primary-tagged fields of a schema. -/
def primaryFields (schema : Schema) : List SchemaField :=
  schema.filter hasPrimaryTag

/-- The input-path fields of a schema. -/
def inFields (schema : Schema) : List SchemaField :=
  schema.filter hasInputTag

/-- A field with no group tag and no path semantics: an algorithmic
parameter by default. -/
def isAlgoField (f : SchemaField) : Bool :=
  !hasInputTag f && !hasOutputTag f && !hasPerfTag f

/-- A performance-parameter field. -/
def isPerfField (f : SchemaField) : Bool :=
  !hasInputTag f && !hasOutputTag f && hasPerfTag f

/-- Errors of schema derivation: a tagging conflict naming the offending
field, or a primary-output configuration error. -/
inductive DeriveError where
  | conflictingTags (field : String)
  | primaryConfig (msg : String)
deriving DecidableEq, Repr

/-- The non-fatal warning text emitted for an input-path field that has no
concrete binding yet; it identifies the field by name
(the test expects a warning matching `in_path "src"`). -/
def inPathWarning (n : String) : String :=
  "in_path \"" ++ n ++ "\" has no value and must be bound before scheduling"

/-- The five grouping results of schema derivation, plus the non-fatal
warnings it surfaces to the caller. -/
structure DerivedGroups where
  in_paths : ParamMap
  out_paths : ParamMap
  algo_params : ParamMap
  perf_params : ParamMap
  primary_out_key : Option String
  warnings : List String
deriving DecidableEq, Repr

/-- Modelled from the spec: selection of `primary_out_key`.  Once output
fields exist, exactly one primary-tagged field is required; zero or more
than one is a configuration error.  A schema without output fields has no
primary key. -/
def derivePrimary (outs prims : List SchemaField) :
    Except DeriveError (Option String) :=
  if outs.isEmpty then .ok none
  else
    match prims with
    | [p] => .ok (some p.name)
    | [] => .error (.primaryConfig "no primary output field declared")
    | _ => .error (.primaryConfig "multiple primary output fields declared")

/-- Modelled from the spec: `ProcessNode._derive_groups_from_params_spec`
(`kwdagger/pipeline.py`, absent from this snapshot).  Partitions a tagged
schema's fields into the four parameter groups and the primary output key,
failing fast on a tagging conflict.  Schema defaults of input-path fields
are ignored — each input path starts unbound (`None`) with a non-fatal
warning — which is the behavior `tests/test_processnode_params.py` pins:
the `src` field's default is the literal `ignored.txt` and the test expects
`node.in_paths['src'] is None` together with a warning naming `src`. -/
def deriveGroups (schema : Schema) : Except DeriveError DerivedGroups :=
  match schema.find? conflictedField with
  | some f => .error (.conflictingTags f.name)
  | none =>
    match derivePrimary (outFields schema) (primaryFields schema) with
    | .error e => .error e
    | .ok pkey =>
      .ok { in_paths := (inFields schema).map (fun f => (f.name, PValue.vnone))
            out_paths := (outFields schema).map (fun f => (f.name, f.default))
            algo_params :=
              (schema.filter isAlgoField).map (fun f => (f.name, f.default))
            perf_params :=
              (schema.filter isPerfField).map (fun f => (f.name, f.default))
            primary_out_key := pkey
            warnings := (inFields schema).map (fun f => inPathWarning f.name) }

/-- The schema of `DemoCfg` in `tests/test_processnode_params.py`. -/
def demoSchema : Schema :=
  [ ⟨"src", .vstr "ignored.txt", ["in_path"]⟩
  , ⟨"dst", .vstr "schema.txt", ["out_path", "primary"]⟩
  , ⟨"extra", .vstr "", ["out_path"]⟩
  , ⟨"foo", .vint 1, []⟩
  , ⟨"workers", .vint 2, ["perf_param"]⟩ ]

/-- The schema of `BadCfg` in `test_params_conflicting_tags`. -/
def badSchema : Schema :=
  [ ⟨"foo", .vint 1, ["in", "out"]⟩ ]

/-- A node's parameter groups and identity, as `ProcessNode` carries them:
`name`, the four group mappings, and the primary output key. -/
structure ProcessNode where
  name : String
  in_paths : ParamMap
  out_paths : ParamMap
  algo_params : ParamMap
  perf_params : ParamMap
  primary_out_key : Option String
deriving DecidableEq, Repr

/-- Replace an entry's value by the explicit class-level value when one is
declared for its key. -/
def overrideFn (explicit : ParamMap) (kv : String × PValue) : String × PValue :=
  match assocLookup explicit kv.1 with
  | some v => (kv.1, v)
  | none => kv

/-- Merge schema-derived entries with explicit class-level entries: an
explicit value wins for a shared key, and explicit keys absent from the
derived mapping are appended. -/
def overrideMap (base explicit : ParamMap) : ParamMap :=
  base.map (overrideFn explicit)
    ++ explicit.filter (fun kv => !hasKey base kv.1)

/-- Modelled from the spec: the explicit manual construction of a
`ProcessNode` — the four parameter-group dictionaries and the primary
output key are set directly on the node, no schema involved
(`§6 Node construction (explicit form)`). -/
def mkNodeExplicit (name : String) (inp outp algo perf : ParamMap)
    (pkey : Option String) : ProcessNode :=
  { name := name, in_paths := inp, out_paths := outp,
    algo_params := algo, perf_params := perf, primary_out_key := pkey }

/-- Modelled from the spec: schema-driven `ProcessNode` construction
(`DemoNode` in the test: `params = DemoCfg` plus an optional explicit
class-level `out_paths` dictionary whose values replace the schema field
defaults for the same keys).  Returns the node and the non-fatal warnings. -/
def mkNodeFromSchema (name : String) (schema : Schema)
    (explicitOut : ParamMap) :
    Except DeriveError (ProcessNode × List String) :=
  match deriveGroups schema with
  | .error e => .error e
  | .ok g =>
    .ok ({ name := name
           in_paths := g.in_paths
           out_paths := overrideMap g.out_paths explicitOut
           algo_params := g.algo_params
           perf_params := g.perf_params
           primary_out_key := g.primary_out_key }, g.warnings)

/-! ## Cache-key / output-path engine -/

/-- A canonical serialization of one value, so that distinct value kinds
never collide textually. -/
def serializeValue : PValue → String
  | .vstr s => "s:" ++ s
  | .vint n => "i:" ++ toString n
  | .vbool b => "b:" ++ toString b
  | .vnone => "null"

/-- Key-order canonicalization: parameters are sorted by name before
hashing, so dictionary order never matters. -/
def sortParams (m : ParamMap) : ParamMap :=
  m.mergeSort (fun a b => a.1 ≤ b.1)

/-- Canonical serialization of a parameter binding. -/
def serializeParams (m : ParamMap) : String :=
  String.intercalate ";"
    ((sortParams m).map (fun kv => kv.1 ++ "=" ++ serializeValue kv.2))

/-- A deterministic 32-bit string hash (the stand-in for the stable content
hash the cache engine condenses parameter bindings with). -/
def strHash (s : String) : Nat :=
  s.data.foldl (fun h c => (h * 131 + c.toNat) % 4294967296) 5381

/-- Modelled from the spec: a Job Instance — a node together with its
concrete resolved `algo_params`, its `perf_params`, and the cache hashes of
the upstream instances feeding its inputs (`§3 Cache Key / Job Instance`). -/
structure JobInstance where
  node_name : String
  algo_params : ParamMap
  perf_params : ParamMap
  lineage : List Nat
deriving DecidableEq, Repr

/-- The canonical hash input of a job instance: node identity, sorted
resolved algorithmic parameters, and upstream lineage hashes.  Performance
parameters are excluded by design invariant. -/
def jobHashInput (j : JobInstance) : String :=
  j.node_name ++ "|" ++ serializeParams j.algo_params ++ "|"
    ++ String.intercalate "," (j.lineage.map toString)

/-- Modelled from the spec: the cache key of a job instance. -/
def jobHash (j : JobInstance) : Nat :=
  strHash (jobHashInput j)

/-- Modelled from the spec: the output directory assigned to a job
instance, `<node_name>/<hash>` relative to the run workspace. -/
def outDir (j : JobInstance) : String :=
  j.node_name ++ "/" ++ toString (jobHash j)

/-! ## Port and connection graph -/

/-- A port is either an input slot or an output slot of a node. -/
inductive PortKind where
  | inport
  | outport
deriving DecidableEq, Repr

/-- A reference to a named port on a named node
(`node.outputs[key]` / `node.inputs[key]`). -/
structure PortRef where
  node : String
  kind : PortKind
  key : String
deriving DecidableEq, Repr

/-- Errors raised by `connect`. -/
inductive ConnectError where
  | unknownNode (node : String)
  | unknownDstPort (node key : String)
  | unknownSrcPort (node key : String)
  | doubleConnection (node key : String)
deriving DecidableEq, Repr

/-- The wiring state of a pipeline: its named nodes and the directed
connections recorded so far. -/
structure PipelineState where
  nodes : List (String × ProcessNode)
  connections : List (PortRef × PortRef)
deriving DecidableEq, Repr

/-- Look a node up by name. -/
def findNode (ps : PipelineState) (n : String) : Option ProcessNode :=
  match ps.nodes.find? (fun kv => kv.1 = n) with
  | some kv => some kv.2
  | none => none

/-- Whether the destination input port already carries an inbound edge. -/
def dstOccupied (ps : PipelineState) (dst : PortRef) : Bool :=
  ps.connections.any (fun c => c.2.node = dst.node && c.2.key = dst.key)

/-- Whether a source port key exists on its node: an output port addresses
`out_paths`, while an input port addresses `in_paths` (the shipped example
pipelines forward one node's input port into another node's input port,
e.g. `pipeline_stub.py` connecting `inputs['src_fpath']` to
`inputs['true_fpath']`, so input ports are legal connection sources). -/
def srcKeyOk (sn : ProcessNode) (src : PortRef) : Bool :=
  match src.kind with
  | .outport => hasKey sn.out_paths src.key
  | .inport => hasKey sn.in_paths src.key

/-- Modelled from the spec: `src_port.connect(dst_port)`
(`kwdagger/pipeline.py`, absent from this snapshot).  Records a directed
edge after checking that both nodes exist, the destination key is one of
the destination node's `in_paths`, the source key exists on the source
node (its `out_paths` for an output port, its `in_paths` for the
input-forwarding connections the examples use), and the destination input
port does not already carry an inbound edge — a second inbound edge is a
double-connection definition error. -/
def connect (ps : PipelineState) (src dst : PortRef) :
    Except ConnectError PipelineState :=
  match findNode ps src.node with
  | none => .error (.unknownNode src.node)
  | some sn =>
    match findNode ps dst.node with
    | none => .error (.unknownNode dst.node)
    | some dn =>
      if !(hasKey dn.in_paths dst.key) then
        .error (.unknownDstPort dst.node dst.key)
      else if !(srcKeyOk sn src) then
        .error (.unknownSrcPort src.node src.key)
      else if dstOccupied ps dst then
        .error (.doubleConnection dst.node dst.key)
      else
        .ok { ps with connections := ps.connections ++ [(src, dst)] }

/-! ## Matrix expander -/

/-- A parameter matrix: ordered `"node.param"` keys, each mapped to its
ordered list of candidate values. -/
abbrev Matrix := List (String × List PValue)

/-- One concrete binding produced by expansion. -/
abbrev Binding := List (String × PValue)

/-- Expansion failure: co-varying keys whose candidate lists have unequal
lengths, naming the offending keys. -/
inductive ExpandError where
  | shapeMismatch (keys : List String)
deriving DecidableEq, Repr

/-- The candidate-value list of a matrix key (empty when absent). -/
def lookupList (m : Matrix) (k : String) : List PValue :=
  match assocLookup m k with
  | some vs => vs
  | none => []

/-- The co-variation group a key belongs to; a key not named by any
declared group varies independently, forming its own singleton group. -/
def covGroupOf (covary : List (List String)) (k : String) : List String :=
  match covary.find? (fun g => g.contains k) with
  | some g => g
  | none => [k]

/-- Keep the first occurrence of every unit, dropping later repeats of
the same co-variation group. -/
def dedupUnits : List (List String) → List (List String)
  | [] => []
  | u :: rest => u :: dedupUnits (rest.filter (fun w => w ≠ u))
termination_by l => l.length
decreasing_by
  simp only [List.length_cons]
  exact Nat.lt_succ_of_le (List.length_filter_le _ _)

/-- The expansion units, in matrix key order: each unit is one
co-variation group, listed once at its first key's position. -/
def expansionUnits (m : Matrix) (covary : List (List String)) :
    List (List String) :=
  dedupUnits (m.map (fun kv => covGroupOf covary kv.1))

/-- Element-wise zip of the candidate lists of one co-variation group: the
i-th binding pairs every key of the group with the i-th entry of its list. -/
def zipUnit (m : Matrix) (ks : List String) : List Binding :=
  match ks with
  | [] => []
  | k0 :: _ =>
    (List.range (lookupList m k0).length).map
      (fun i => ks.map (fun k => (k, (lookupList m k).getD i PValue.vnone)))

/-- Expand one unit: a singleton key yields one partial binding per
candidate value; a co-variation group is zipped element-wise, and unequal
list lengths fail the whole expansion with a shape mismatch. -/
def expandUnit (m : Matrix) (ks : List String) :
    Except ExpandError (List Binding) :=
  match ks with
  | [k] => .ok ((lookupList m k).map (fun v => [(k, v)]))
  | _ =>
    if ks.all (fun k =>
        (lookupList m k).length = (lookupList m (ks.headD "")).length) then
      .ok (zipUnit m ks)
    else
      .error (.shapeMismatch ks)

/-- Cross product across units: every choice of one partial binding per
unit is concatenated into one concrete binding. -/
def crossAll : List (List Binding) → List Binding
  | [] => [[]]
  | u :: rest => u.flatMap (fun b => (crossAll rest).map (fun b2 => b ++ b2))

/-- Sequence the unit expansions, failing on the first expansion error. -/
def expandUnits (m : Matrix) : List (List String) →
    Except ExpandError (List (List Binding))
  | [] => .ok []
  | ks :: rest =>
    match expandUnit m ks with
    | .error e => .error e
    | .ok u =>
      match expandUnits m rest with
      | .error e => .error e
      | .ok us => .ok (u :: us)

/-- Modelled from the spec: matrix expansion (`§4.4 Matrix Expander`,
`kwdagger/schedule.py` absent from this snapshot).  Combination semantics
is the cross product across distinct keys, except that keys declared to
co-vary are zipped element-wise; co-varying keys of unequal lengths fail
the whole expansion with a shape-mismatch error naming the keys. -/
def expandMatrix (m : Matrix) (covary : List (List String)) :
    Except ExpandError (List Binding) :=
  match expandUnits m (expansionUnits m covary) with
  | .error e => .error e
  | .ok us => .ok (crossAll us)

/-! ## Scheduler -/

/-- Job states of the scheduler's per-job state machine.  Dispatching a
job stands for its `dispatched → running` phase; a run then settles as
`succeeded` or `failed`.  `blocked` marks a job whose predecessors cannot
all succeed; `cached` short-circuits execution. -/
inductive JobStatus where
  | pending
  | succeeded
  | failed
  | blocked
  | cached
deriving DecidableEq, Repr

/-- A predecessor status that lets a dependent become ready. -/
def okStatus : JobStatus → Bool
  | .succeeded => true
  | .cached => true
  | _ => false

/-- Scheduler state: per-job statuses (newest entry first) and the ordered
list of jobs actually dispatched to the execution backend. -/
structure SchedState where
  status : List (Nat × JobStatus)
  dispatched : List Nat
deriving DecidableEq, Repr

/-- First-match lookup over numeric job ids. -/
def natLookup {α : Type} : List (Nat × α) → Nat → Option α
  | [], _ => none
  | (k, v) :: rest, key => if k = key then some v else natLookup rest key

/-- A job's current status; a job never touched is `pending`. -/
def statusOf (s : SchedState) (j : Nat) : JobStatus :=
  (natLookup s.status j).getD .pending

/-- Modelled from the spec: one scheduler step on job `j` (`§4.5`,
`kwdagger/schedule.py` absent from this snapshot).  If every predecessor
is `succeeded` or `cached` the job becomes ready: a cache hit marks it
`cached` without dispatch, otherwise it is dispatched and settles
`succeeded` or `failed` per the execution outcome.  Otherwise the job is
marked `blocked` and never dispatched. -/
def stepJob (preds : Nat → List Nat) (fails : Nat → Bool)
    (cacheHit : Nat → Bool) (s : SchedState) (j : Nat) : SchedState :=
  if (preds j).all (fun p => okStatus (statusOf s p)) then
    if cacheHit j then
      { s with status := (j, .cached) :: s.status }
    else
      { status := (j, if fails j then .failed else .succeeded) :: s.status
        dispatched := s.dispatched ++ [j] }
  else
    { s with status := (j, .blocked) :: s.status }

/-- Modelled from the spec: a whole scheduler run over jobs processed in
the dependency order `order` (predecessors before dependents), starting
from the empty state. -/
def runSchedule (preds : Nat → List Nat) (fails : Nat → Bool)
    (cacheHit : Nat → Bool) (order : List Nat) : SchedState :=
  order.foldl (stepJob preds fails cacheHit) ⟨[], []⟩

/-- `order` lists every predecessor of each of its jobs before that job:
the topological-processing guarantee the scheduler establishes from the
dependency graph. -/
def TopoOrder (preds : Nat → List Nat) (order : List Nat) : Prop :=
  ∀ l1 j l2, order = l1 ++ j :: l2 → ∀ p ∈ preds j, p ∈ l1

/-- `p` is a direct dependency of `j`. -/
def DirectPred (preds : Nat → List Nat) (p j : Nat) : Prop :=
  p ∈ preds j

/-! ## Theorems -/

/-- C1: for every node and every two job instances of that node whose
resolved `algo_params` (including upstream lineage) are identical, the
cache-key hash and the assigned output directory are the same regardless
of any difference in `perf_params`: neither function reads the
performance parameters. -/
theorem cacheKey_outDir_perf_independent (j1 j2 : JobInstance)
    (hn : j1.node_name = j2.node_name)
    (ha : j1.algo_params = j2.algo_params)
    (hl : j1.lineage = j2.lineage) :
    jobHash j1 = jobHash j2 ∧ outDir j1 = outDir j2 := by
  have h : jobHashInput j1 = jobHashInput j2 := by
    unfold jobHashInput
    rw [hn, ha, hl]
  have hh : jobHash j1 = jobHash j2 := by
    unfold jobHash
    rw [h]
  exact ⟨hh, by unfold outDir; rw [hn, hh]⟩

/-- Witness for C1: two concrete job instances differing only in their
`workers` performance parameter share the hash and output directory. -/
theorem cacheKey_outDir_perf_independent_witness :
    jobHash ⟨"score_heatmap", [("salient_channel", .vstr "salient")],
        [("workers", .vstr "auto")], [7]⟩ =
      jobHash ⟨"score_heatmap", [("salient_channel", .vstr "salient")],
        [("workers", .vint 4)], [7]⟩ ∧
    outDir ⟨"score_heatmap", [("salient_channel", .vstr "salient")],
        [("workers", .vstr "auto")], [7]⟩ =
      outDir ⟨"score_heatmap", [("salient_channel", .vstr "salient")],
        [("workers", .vint 4)], [7]⟩ :=
  cacheKey_outDir_perf_independent _ _ rfl rfl rfl

/-- C4: for every schema containing a field tagged with both an
input-group tag and an output-group tag, derivation fails with a
tagging-conflict error naming an offending (conflicted, in-schema) field;
it never silently picks one of the two groups. -/
theorem conflicting_tags_error (schema : Schema) (f : SchemaField)
    (hf : f ∈ schema) (hc : conflictedField f = true) :
    ∃ g ∈ schema, conflictedField g = true ∧
      deriveGroups schema = .error (.conflictingTags g.name) := by
  cases hfind : schema.find? conflictedField with
  | none =>
    exact absurd hc (by simpa using List.find?_eq_none.mp hfind f hf)
  | some g =>
    exact ⟨g, List.mem_of_find?_eq_some hfind, List.find?_some hfind,
      by simp [deriveGroups, hfind]⟩

/-- Witness for C4: the `BadCfg` schema of `test_params_conflicting_tags`
(one field tagged both `in` and `out`) fails with a conflict naming `foo`. -/
theorem conflicting_tags_error_witness :
    ∃ g ∈ badSchema, conflictedField g = true ∧
      deriveGroups badSchema = .error (.conflictingTags g.name) :=
  conflicting_tags_error badSchema ⟨"foo", .vint 1, ["in", "out"]⟩
    (by decide) (by decide)

/-- Overriding a single entry with an empty explicit mapping is the
identity. -/
lemma overrideFn_nil : overrideFn ([] : ParamMap) = id :=
  funext fun _ => rfl

/-- Overriding with an empty explicit mapping changes nothing. -/
lemma overrideMap_nil (base : ParamMap) : overrideMap base [] = base := by
  simp [overrideMap, overrideFn_nil, assocLookup, hasKey]

/-- C2: for every tagged schema, constructing a `ProcessNode` from the
schema and constructing it from the equivalent explicit dictionaries (the
groups the schema denotes) yield identical `in_paths`, `out_paths`,
`algo_params`, `perf_params` and `primary_out_key` — the two construction
paths produce the very same node. -/
theorem schema_explicit_construction_equiv (name : String) (schema : Schema)
    (g : DerivedGroups) (h : deriveGroups schema = .ok g) :
    mkNodeFromSchema name schema [] =
      .ok (mkNodeExplicit name g.in_paths g.out_paths g.algo_params
        g.perf_params g.primary_out_key, g.warnings) := by
  simp [mkNodeFromSchema, h, mkNodeExplicit, overrideMap_nil]

/-- Witness for C2: the `DemoCfg` schema of the test, built both ways. -/
theorem schema_explicit_construction_equiv_witness :
    mkNodeFromSchema "demo" demoSchema [] =
      .ok (mkNodeExplicit "demo" [("src", .vnone)]
        [("dst", .vstr "schema.txt"), ("extra", .vstr "")]
        [("foo", .vint 1)] [("workers", .vint 2)] (some "dst"),
        [inPathWarning "src"]) :=
  schema_explicit_construction_equiv "demo" demoSchema
    ⟨[("src", .vnone)],
      [("dst", .vstr "schema.txt"), ("extra", .vstr "")],
      [("foo", .vint 1)], [("workers", .vint 2)], some "dst",
      [inPathWarning "src"]⟩ rfl

/-- C5: for every conflict-free schema with output fields, derivation with
exactly one primary-tagged field succeeds and returns that field's name as
`primary_out_key`, while zero or more than one primary-tagged field makes
derivation fail with a primary-output configuration error. -/
theorem primary_out_key_spec (schema : Schema)
    (hc : schema.find? conflictedField = none)
    (ho : outFields schema ≠ []) :
    (∀ p, primaryFields schema = [p] →
      ∃ g, deriveGroups schema = .ok g ∧ g.primary_out_key = some p.name) ∧
    ((primaryFields schema).length ≠ 1 →
      ∃ m, deriveGroups schema = .error (.primaryConfig m)) := by
  have hoe : (outFields schema).isEmpty = false := by
    simpa [List.isEmpty_iff] using ho
  constructor
  · intro p hp
    refine ⟨⟨(inFields schema).map (fun f => (f.name, PValue.vnone)),
        (outFields schema).map (fun f => (f.name, f.default)),
        (schema.filter isAlgoField).map (fun f => (f.name, f.default)),
        (schema.filter isPerfField).map (fun f => (f.name, f.default)),
        some p.name,
        (inFields schema).map (fun f => inPathWarning f.name)⟩, ?_, rfl⟩
    simp [deriveGroups, hc, derivePrimary, hoe, hp]
  · intro hlen
    cases hp : primaryFields schema with
    | nil =>
      exact ⟨"no primary output field declared",
        by simp [deriveGroups, hc, derivePrimary, hoe, hp]⟩
    | cons p rest =>
      cases rest with
      | nil => exact absurd (by simp [hp]) hlen
      | cons q rest2 =>
        exact ⟨"multiple primary output fields declared",
          by simp [deriveGroups, hc, derivePrimary, hoe, hp]⟩

/-- Witness for C5: the `DemoCfg` schema has exactly one primary-tagged
output field, `dst`, and derivation returns it as `primary_out_key`. -/
theorem primary_out_key_spec_witness :
    ∃ g, deriveGroups demoSchema = .ok g ∧ g.primary_out_key = some "dst" :=
  (primary_out_key_spec demoSchema (by decide) (by decide)).1
    ⟨"dst", .vstr "schema.txt", ["out_path", "primary"]⟩ (by decide)

/-- Looking a member field up in the unbound input-path mapping always
yields `None`. -/
lemma assocLookup_inpaths (l : List SchemaField) (f : SchemaField)
    (hf : f ∈ l) :
    assocLookup (l.map (fun x => (x.name, PValue.vnone))) f.name =
      some PValue.vnone := by
  induction l with
  | nil => cases hf
  | cons hd tl ih =>
    by_cases h : hd.name = f.name
    · simp [assocLookup, h]
    · rcases List.mem_cons.mp hf with he | ht
      · exact absurd (by rw [he]) h
      · simpa [assocLookup, h] using ih ht

/-- C6: for every conflict-free, primary-consistent schema containing an
input-path field whose declared default is empty or `None`, derivation
still succeeds (the unbound input is never an exception), it surfaces a
non-fatal warning naming that field, and it leaves that input path mapped
to `None`. -/
theorem inpath_empty_default_warning (schema : Schema) (f : SchemaField)
    (hf : f ∈ schema) (hin : hasInputTag f = true)
    (hdef : f.default = PValue.vnone ∨ f.default = PValue.vstr "")
    (hc : schema.find? conflictedField = none)
    (pk : Option String)
    (hp : derivePrimary (outFields schema) (primaryFields schema) = .ok pk) :
    ∃ g, deriveGroups schema = .ok g ∧
      inPathWarning f.name ∈ g.warnings ∧
      assocLookup g.in_paths f.name = some PValue.vnone := by
  have hfi : f ∈ inFields schema := List.mem_filter.mpr ⟨hf, hin⟩
  refine ⟨⟨(inFields schema).map (fun x => (x.name, PValue.vnone)),
      (outFields schema).map (fun x => (x.name, x.default)),
      (schema.filter isAlgoField).map (fun x => (x.name, x.default)),
      (schema.filter isPerfField).map (fun x => (x.name, x.default)),
      pk,
      (inFields schema).map (fun x => inPathWarning x.name)⟩,
    by simp [deriveGroups, hc, hp], ?_, ?_⟩
  · exact List.mem_map.mpr ⟨f, hfi, rfl⟩
  · exact assocLookup_inpaths _ f hfi

/-- A small schema whose single input-path field declares no usable
default. -/
def emptyInSchema : Schema :=
  [ ⟨"inp", .vnone, ["in_path"]⟩
  , ⟨"dst", .vstr "out.json", ["out_path", "primary"]⟩ ]

/-- Witness for C6: derivation over `emptyInSchema` succeeds, warns about
`inp` by name, and maps `inp` to `None`. -/
theorem inpath_empty_default_warning_witness :
    ∃ g, deriveGroups emptyInSchema = .ok g ∧
      inPathWarning "inp" ∈ g.warnings ∧
      assocLookup g.in_paths "inp" = some PValue.vnone :=
  inpath_empty_default_warning emptyInSchema ⟨"inp", .vnone, ["in_path"]⟩
    (by decide) (by decide) (Or.inl rfl) (by decide) (some "dst") rfl

/-- Inversion of a successful derivation: the five group mappings are
exactly the classified projections of the schema. -/
lemma deriveGroups_ok_inv (schema : Schema) (g : DerivedGroups)
    (h : deriveGroups schema = .ok g) :
    g.in_paths = (inFields schema).map (fun x => (x.name, PValue.vnone)) ∧
    g.out_paths = (outFields schema).map (fun x => (x.name, x.default)) ∧
    g.algo_params =
      (schema.filter isAlgoField).map (fun x => (x.name, x.default)) ∧
    g.perf_params =
      (schema.filter isPerfField).map (fun x => (x.name, x.default)) ∧
    g.warnings = (inFields schema).map (fun x => inPathWarning x.name) := by
  unfold deriveGroups at h
  cases hcf : schema.find? conflictedField with
  | some f0 => rw [hcf] at h; simp at h
  | none =>
    rw [hcf] at h
    cases hdp : derivePrimary (outFields schema) (primaryFields schema) with
    | error e => rw [hdp] at h; simp at h
    | ok pk =>
      rw [hdp] at h
      simp only [Except.ok.injEq] at h
      subst h
      exact ⟨rfl, rfl, rfl, rfl, rfl⟩

/-- Looking a member field up in a name-keyed default mapping built from a
duplicate-free field list finds that field's default. -/
lemma assocLookup_fieldMap (l : List SchemaField) (f : SchemaField)
    (hf : f ∈ l) (hnd : (l.map SchemaField.name).Nodup) :
    assocLookup (l.map (fun x => (x.name, x.default))) f.name =
      some f.default := by
  induction l with
  | nil => cases hf
  | cons hd tl ih =>
    have hnames : (∀ x ∈ tl, ¬ x.name = hd.name) ∧
        (tl.map SchemaField.name).Nodup := by simpa using hnd
    rcases List.mem_cons.mp hf with he | ht
    · subst he
      simp [assocLookup]
    · have hne : hd.name ≠ f.name := fun hx => hnames.1 f ht hx.symm
      simpa [assocLookup, hne] using ih ht hnames.2

/-- C7: for every schema with duplicate-free field names, a field carrying
no group tag (hence no path semantics) is classified by a successful
derivation as an `algo_param` mapped to its declared default value. -/
theorem untagged_field_is_algo (schema : Schema) (f : SchemaField)
    (hf : f ∈ schema) (ht : f.tags = [])
    (hnd : (schema.map SchemaField.name).Nodup)
    (g : DerivedGroups) (h : deriveGroups schema = .ok g) :
    assocLookup g.algo_params f.name = some f.default := by
  have halgo : isAlgoField f = true := by
    simp [isAlgoField, hasInputTag, hasOutputTag, hasPerfTag, ht]
  have hmem : f ∈ schema.filter isAlgoField := List.mem_filter.mpr ⟨hf, halgo⟩
  obtain ⟨-, -, hga, -, -⟩ := deriveGroups_ok_inv schema g h
  rw [hga]
  have hsub : ((schema.filter isAlgoField).map SchemaField.name).Nodup :=
    hnd.sublist ((schema.filter_sublist).map SchemaField.name)
  exact assocLookup_fieldMap _ f hmem hsub

/-- Witness for C7: the untagged `foo = 1` field of `DemoCfg` lands in
`algo_params` with its default. -/
theorem untagged_field_is_algo_witness :
    assocLookup
      [("foo", PValue.vint 1)] "foo" = some (PValue.vint 1) :=
  untagged_field_is_algo demoSchema ⟨"foo", .vint 1, []⟩
    (by decide) rfl (by decide)
    ⟨[("src", .vnone)],
      [("dst", .vstr "schema.txt"), ("extra", .vstr "")],
      [("foo", .vint 1)], [("workers", .vint 2)], some "dst",
      [inPathWarning "src"]⟩ rfl

/-- Lookup succeeds on the left part of an appended mapping. -/
lemma assocLookup_append_left {α : Type} (l1 l2 : List (String × α))
    (k : String) (v : α) (h : assocLookup l1 k = some v) :
    assocLookup (l1 ++ l2) k = some v := by
  induction l1 with
  | nil => cases h
  | cons hd tl ih =>
    obtain ⟨k0, v0⟩ := hd
    by_cases hk : k0 = k
    · simpa [assocLookup, hk] using h
    · simp only [List.cons_append]
      simpa [assocLookup, hk] using ih (by simpa [assocLookup, hk] using h)

/-- Overriding an entry never changes its key. -/
lemma overrideFn_fst (ex : ParamMap) (kv : String × PValue) :
    (overrideFn ex kv).1 = kv.1 := by
  unfold overrideFn
  rcases assocLookup ex kv.1 with _ | v <;> rfl

/-- Looking up a key present in the base mapping after an override finds
the explicit value declared for that key. -/
lemma assocLookup_map_override (base ex : ParamMap) (k : String) (v : PValue)
    (hb : (assocLookup base k).isSome) (he : assocLookup ex k = some v) :
    assocLookup (base.map (overrideFn ex)) k = some v := by
  induction base with
  | nil => simp [assocLookup] at hb
  | cons hd tl ih =>
    obtain ⟨k0, v0⟩ := hd
    by_cases hk : k0 = k
    · subst hk
      simp [assocLookup, overrideFn, he]
    · have hb' : (assocLookup tl k).isSome := by
        simpa [assocLookup, hk] using hb
      rcases hof : overrideFn ex (k0, v0) with ⟨k1, v1⟩
      have hk1 : k1 = k0 := by
        have := overrideFn_fst ex (k0, v0)
        rw [hof] at this
        exact this
      simp only [List.map_cons, hof]
      simpa [assocLookup, hk1, hk] using ih hb'

/-- Lookup of a base-resident key in the merged mapping yields the
explicit value. -/
lemma assocLookup_overrideMap (base ex : ParamMap) (k : String) (v : PValue)
    (hb : hasKey base k = true) (he : assocLookup ex k = some v) :
    assocLookup (overrideMap base ex) k = some v :=
  assocLookup_append_left _ _ _ _
    (assocLookup_map_override base ex k v (by simpa [hasKey] using hb) he)

/-- C10: when a node supplies both a schema and an explicit class-level
`out_paths` entry for a key the schema also declares, the constructed
node's `out_paths` carries the explicit value for that key, while
`in_paths`, `algo_params`, `perf_params` and `primary_out_key` still come
from the schema derivation. -/
theorem explicit_out_paths_override (name : String) (schema : Schema)
    (explicitOut : ParamMap) (g : DerivedGroups)
    (hder : deriveGroups schema = .ok g)
    (k : String) (v : PValue)
    (hb : hasKey g.out_paths k = true)
    (he : assocLookup explicitOut k = some v)
    (node : ProcessNode) (ws : List String)
    (hmk : mkNodeFromSchema name schema explicitOut = .ok (node, ws)) :
    assocLookup node.out_paths k = some v ∧
    node.in_paths = g.in_paths ∧
    node.algo_params = g.algo_params ∧
    node.perf_params = g.perf_params ∧
    node.primary_out_key = g.primary_out_key := by
  unfold mkNodeFromSchema at hmk
  rw [hder] at hmk
  simp only [Except.ok.injEq, Prod.mk.injEq] at hmk
  obtain ⟨hnode, hws⟩ := hmk
  subst hnode
  exact ⟨assocLookup_overrideMap g.out_paths explicitOut k v hb he,
    rfl, rfl, rfl, rfl⟩

/-- Witness for C10: `DemoNode` (schema `DemoCfg` plus explicit
`out_paths = {dst: explicit.txt}`) takes `explicit.txt` for `dst` and the
schema-derived values everywhere else. -/
theorem explicit_out_paths_override_witness :
    assocLookup [("dst", PValue.vstr "explicit.txt"),
      ("extra", PValue.vstr "")] "dst" = some (PValue.vstr "explicit.txt") ∧
    [("src", PValue.vnone)] = [("src", PValue.vnone)] ∧
    [("foo", PValue.vint 1)] = [("foo", PValue.vint 1)] ∧
    [("workers", PValue.vint 2)] = [("workers", PValue.vint 2)] ∧
    some "dst" = some "dst" :=
  explicit_out_paths_override "demo" demoSchema
    [("dst", .vstr "explicit.txt")]
    ⟨[("src", .vnone)],
      [("dst", .vstr "schema.txt"), ("extra", .vstr "")],
      [("foo", .vint 1)], [("workers", .vint 2)], some "dst",
      [inPathWarning "src"]⟩ rfl
    "dst" (.vstr "explicit.txt") (by decide) (by decide)
    ⟨"demo", [("src", .vnone)],
      [("dst", .vstr "explicit.txt"), ("extra", .vstr "")],
      [("foo", .vint 1)], [("workers", .vint 2)], some "dst"⟩
    [inPathWarning "src"] rfl

/-- The `Stage1_Predict` node of `pipeline_stub.py`. -/
def stagePredict : ProcessNode :=
  mkNodeExplicit "stage1_predict" [("src_fpath", .vnone)]
    [("dst_fpath", .vstr "stage1_prediction.json"), ("dst_dpath", .vstr ".")]
    [("param1", .vint 1)] [("workers", .vint 0)] (some "dst_fpath")

/-- The `Stage1_Evaluate` node of `pipeline_stub.py`. -/
def stageEvaluate : ProcessNode :=
  mkNodeExplicit "stage1_evaluate"
    [("true_fpath", .vnone), ("pred_fpath", .vnone)]
    [("out_fpath", .vstr "stage1_evaluation.json")] [] [] none

/-- The two-node pipeline of `my_demo_pipeline` before any wiring. -/
def stubPipeline : PipelineState :=
  ⟨[("stage1_predict", stagePredict), ("stage1_evaluate", stageEvaluate)], []⟩

/-- Counterexample to C3 as stated: the repository's own example
(`pipeline_stub.py`, `my_demo_pipeline`) connects the *input* port
`src_fpath` of `stage1_predict` to the input `true_fpath` of
`stage1_evaluate`; the connection is recorded even though `src_fpath` does
not exist in the source node's `out_paths`, so a recorded connection does
not require the source key to be an output key. -/
theorem connect_input_source_counterexample :
    hasKey stagePredict.out_paths "src_fpath" = false ∧
    connect stubPipeline
        ⟨"stage1_predict", .inport, "src_fpath"⟩
        ⟨"stage1_evaluate", .inport, "true_fpath"⟩ =
      .ok ⟨stubPipeline.nodes,
        [(⟨"stage1_predict", .inport, "src_fpath"⟩,
          ⟨"stage1_evaluate", .inport, "true_fpath"⟩)]⟩ := by
  constructor
  · decide
  · rfl

/-- C3 (amended): a connection is recorded only if the destination key
exists in the destination node's `in_paths` and the source key exists on
the source node — in its `out_paths` for an output port, or in its
`in_paths` for the input-forwarding connections the examples use — and a
second inbound connection to an input port that already carries one
raises a double-connection error. -/
theorem connect_spec (ps : PipelineState) (src dst : PortRef) :
    (∀ ps', connect ps src dst = .ok ps' →
      ∃ sn dn, findNode ps src.node = some sn ∧
        findNode ps dst.node = some dn ∧
        hasKey dn.in_paths dst.key = true ∧
        srcKeyOk sn src = true ∧
        dstOccupied ps dst = false ∧
        ps'.connections = ps.connections ++ [(src, dst)]) ∧
    (∀ sn dn, findNode ps src.node = some sn →
      findNode ps dst.node = some dn →
      hasKey dn.in_paths dst.key = true →
      srcKeyOk sn src = true →
      dstOccupied ps dst = true →
      connect ps src dst = .error (.doubleConnection dst.node dst.key)) := by
  constructor
  · intro ps' h
    unfold connect at h
    cases hs : findNode ps src.node with
    | none => rw [hs] at h; cases h
    | some sn =>
      rw [hs] at h
      cases hd : findNode ps dst.node with
      | none => rw [hd] at h; cases h
      | some dn =>
        rw [hd] at h
        by_cases hik : hasKey dn.in_paths dst.key
        · by_cases hsk : srcKeyOk sn src
          · by_cases hoc : dstOccupied ps dst
            · simp [hik, hsk, hoc] at h
            · refine ⟨sn, dn, rfl, rfl, by simpa using hik,
                by simpa using hsk, by simpa using hoc, ?_⟩
              simp [hik, hsk, hoc] at h
              rw [← h]
          · simp [hik, hsk] at h
        · simp [hik] at h
  · intro sn dn hs hd hik hsk hoc
    unfold connect
    rw [hs, hd]
    simp [hik, hsk, hoc]

/-- Witness for C3 (amended): wiring `stage1_predict.dst_fpath` into
`stage1_evaluate.pred_fpath` and then attempting a second inbound
connection to the same input port raises the double-connection error. -/
theorem connect_spec_witness :
    connect ⟨stubPipeline.nodes,
        [(⟨"stage1_predict", .outport, "dst_fpath"⟩,
          ⟨"stage1_evaluate", .inport, "pred_fpath"⟩)]⟩
      ⟨"stage1_predict", .outport, "dst_dpath"⟩
      ⟨"stage1_evaluate", .inport, "pred_fpath"⟩ =
      .error (.doubleConnection "stage1_evaluate" "pred_fpath") :=
  (connect_spec ⟨stubPipeline.nodes,
      [(⟨"stage1_predict", .outport, "dst_fpath"⟩,
        ⟨"stage1_evaluate", .inport, "pred_fpath"⟩)]⟩
    ⟨"stage1_predict", .outport, "dst_dpath"⟩
    ⟨"stage1_evaluate", .inport, "pred_fpath"⟩).2
    stagePredict stageEvaluate (by decide) (by decide)
    (by decide) (by decide) (by decide)

/-- Indexing two equal-length lists over the index range is their
element-wise zip. -/
lemma range_map_getD_eq_zipWith (a b : String) (xs ys : List PValue)
    (h : xs.length = ys.length) :
    (List.range xs.length).map
      (fun i => [(a, xs.getD i PValue.vnone), (b, ys.getD i PValue.vnone)]) =
    List.zipWith (fun x y => [(a, x), (b, y)]) xs ys := by
  induction xs generalizing ys with
  | nil => simp
  | cons x xs ih =>
    cases ys with
    | nil => simp at h
    | cons y ys =>
      have h' : xs.length = ys.length := by simpa using h
      have htail : List.map
          ((fun i => [(a, (x :: xs).getD i PValue.vnone),
            (b, (y :: ys).getD i PValue.vnone)]) ∘ Nat.succ)
          (List.range xs.length) =
          List.zipWith (fun u v => [(a, u), (b, v)]) xs ys := by
        rw [← ih ys h']
        apply List.map_congr_left
        intro i hi
        simp [Function.comp, List.getD_cons_succ]
      rw [List.length_cons, List.range_succ_eq_map, List.map_cons,
        List.map_map, List.zipWith_cons_cons, htail]
      simp

/-- Crossing a single unit changes nothing. -/
lemma crossAll_single (u : List Binding) : crossAll [u] = u := by
  simp [crossAll]

/-- Crossing two units concatenates each pair of partial bindings. -/
lemma crossAll_pair (u1 u2 : List Binding) :
    crossAll [u1, u2] =
      u1.flatMap (fun b1 => u2.map (fun b2 => b1 ++ b2)) := by
  rw [show crossAll [u1, u2] =
    u1.flatMap (fun b1 => (crossAll [u2]).map (fun b2 => b1 ++ b2)) from rfl,
    crossAll_single]

/-- Counting the bindings of an independent two-key expansion. -/
lemma length_cross_flatMap (a b : String) (xs ys : List PValue) :
    (xs.flatMap (fun x => ys.map (fun y => [(a, x), (b, y)]))).length =
      xs.length * ys.length := by
  induction xs with
  | nil => simp
  | cons x xs ih =>
    simp only [List.flatMap_cons, List.length_append, List.length_map,
      List.length_cons, ih, Nat.succ_mul]
    omega

/-- C8: for every matrix over two distinct keys, independent expansion
yields exactly the cross product, of size `m * n`; declared co-variation
with equal-length lists yields exactly the element-wise zipped bindings;
and co-varying keys of unequal lengths fail the whole expansion with a
shape-mismatch error naming the keys. -/
theorem matrix_expansion_spec (a b : String) (xs ys : List PValue)
    (hab : a ≠ b) :
    (expandMatrix [(a, xs), (b, ys)] [] =
      .ok (xs.flatMap (fun x => ys.map (fun y => [(a, x), (b, y)])))) ∧
    ((xs.flatMap (fun x => ys.map (fun y => [(a, x), (b, y)]))).length =
      xs.length * ys.length) ∧
    (xs.length = ys.length →
      expandMatrix [(a, xs), (b, ys)] [[a, b]] =
        .ok (List.zipWith (fun x y => [(a, x), (b, y)]) xs ys)) ∧
    (xs.length ≠ ys.length →
      expandMatrix [(a, xs), (b, ys)] [[a, b]] =
        .error (.shapeMismatch [a, b])) := by
  have hba : b ≠ a := Ne.symm hab
  have hla : lookupList [(a, xs), (b, ys)] a = xs := by
    simp [lookupList, assocLookup]
  have hlb : lookupList [(a, xs), (b, ys)] b = ys := by
    simp [lookupList, assocLookup, hab]
  have hcov : expansionUnits [(a, xs), (b, ys)] [[a, b]] = [[a, b]] := by
    simp [expansionUnits, covGroupOf, dedupUnits, List.find?, hab]
  refine ⟨?_, ?_, ?_, ?_⟩
  · have hunits : expansionUnits [(a, xs), (b, ys)] [] = [[a], [b]] := by
      simp [expansionUnits, covGroupOf, dedupUnits, List.find?, hab, hba]
    unfold expandMatrix
    rw [hunits]
    have hexp : expandUnits [(a, xs), (b, ys)] [[a], [b]] =
        .ok [xs.map (fun v => [(a, v)]), ys.map (fun v => [(b, v)])] := by
      simp [expandUnits, expandUnit, hla, hlb]
    rw [hexp]
    simp only [crossAll_pair, List.flatMap_map, List.map_map, Except.ok.injEq]
    refine List.flatMap_congr fun x hx => ?_
    refine List.map_congr_left fun y hy => ?_
    simp [Function.comp]
  · exact length_cross_flatMap a b xs ys
  · intro hlen
    unfold expandMatrix
    rw [hcov]
    have hexp : expandUnits [(a, xs), (b, ys)] [[a, b]] =
        .ok [zipUnit [(a, xs), (b, ys)] [a, b]] := by
      simp [expandUnits, expandUnit, hla, hlb, hlen]
    rw [hexp]
    have hzip : zipUnit [(a, xs), (b, ys)] [a, b] =
        List.zipWith (fun x y => [(a, x), (b, y)]) xs ys := by
      simp only [zipUnit, List.map_cons, List.map_nil, hla, hlb]
      exact range_map_getD_eq_zipWith a b xs ys hlen
    rw [hzip]
    simp [crossAll_single]
  · intro hlen
    have hlen' : ys.length ≠ xs.length := fun hx => hlen hx.symm
    unfold expandMatrix
    rw [hcov]
    have hexp : expandUnits [(a, xs), (b, ys)] [[a, b]] =
        .error (.shapeMismatch [a, b]) := by
      simp [expandUnits, expandUnit, hla, hlb, hlen']
    rw [hexp]

/-- Witness for C8: the spec's own example `{a: [1,2], b: [x,y]}`. -/
theorem matrix_expansion_spec_witness :
    (expandMatrix [("a", [PValue.vint 1, PValue.vint 2]),
        ("b", [PValue.vstr "x", PValue.vstr "y"])] [] =
      .ok [[("a", PValue.vint 1), ("b", PValue.vstr "x")],
        [("a", PValue.vint 1), ("b", PValue.vstr "y")],
        [("a", PValue.vint 2), ("b", PValue.vstr "x")],
        [("a", PValue.vint 2), ("b", PValue.vstr "y")]]) ∧
    (expandMatrix [("a", [PValue.vint 1, PValue.vint 2]),
        ("b", [PValue.vstr "x", PValue.vstr "y"])] [["a", "b"]] =
      .ok [[("a", PValue.vint 1), ("b", PValue.vstr "x")],
        [("a", PValue.vint 2), ("b", PValue.vstr "y")]]) ∧
    (expandMatrix [("a", [PValue.vint 1, PValue.vint 2]),
        ("b", [PValue.vstr "x"])] [["a", "b"]] =
      .error (.shapeMismatch ["a", "b"])) := by
  refine ⟨?_, ?_, ?_⟩
  · exact (matrix_expansion_spec "a" "b"
      [PValue.vint 1, PValue.vint 2] [PValue.vstr "x", PValue.vstr "y"]
      (by decide)).1
  · exact (matrix_expansion_spec "a" "b"
      [PValue.vint 1, PValue.vint 2] [PValue.vstr "x", PValue.vstr "y"]
      (by decide)).2.2.1 (by decide)
  · exact (matrix_expansion_spec "a" "b"
      [PValue.vint 1, PValue.vint 2] [PValue.vstr "x"]
      (by decide)).2.2.2 (by decide)

/-- A scheduler step on job `j` leaves every other job's status
unchanged. -/
lemma statusOf_stepJob_ne (preds : Nat → List Nat)
    (fails cacheHit : Nat → Bool) (s : SchedState) (j i : Nat) (h : i ≠ j) :
    statusOf (stepJob preds fails cacheHit s j) i = statusOf s i := by
  have hji : j ≠ i := Ne.symm h
  unfold stepJob
  split
  · split
    · simp [statusOf, natLookup, hji]
    · simp [statusOf, natLookup, hji]
  · simp [statusOf, natLookup, hji]

/-- Processing jobs other than `j` leaves `j`'s status unchanged. -/
lemma statusOf_foldl_not_mem (preds : Nat → List Nat)
    (fails cacheHit : Nat → Bool) (l : List Nat) (s : SchedState)
    (j : Nat) (h : j ∉ l) :
    statusOf (l.foldl (stepJob preds fails cacheHit) s) j = statusOf s j := by
  induction l generalizing s with
  | nil => rfl
  | cons x xs ih =>
    have hx : j ≠ x := fun he => h (he ▸ List.mem_cons_self x xs)
    have hxs : j ∉ xs := fun hm => h (List.mem_cons_of_mem _ hm)
    rw [List.foldl_cons, ih _ hxs,
      statusOf_stepJob_ne preds fails cacheHit s x j hx]

/-- A step dispatches at most the job it processes. -/
lemma dispatched_stepJob (preds : Nat → List Nat)
    (fails cacheHit : Nat → Bool) (s : SchedState) (j i : Nat)
    (h : i ∈ (stepJob preds fails cacheHit s j).dispatched) :
    i ∈ s.dispatched ∨ i = j := by
  unfold stepJob at h
  split at h
  · split at h
    · exact Or.inl h
    · simp only [List.mem_append, List.mem_singleton] at h
      exact h
  · exact Or.inl h

/-- A fold dispatches only jobs it processed or jobs already dispatched. -/
lemma mem_dispatched_foldl (preds : Nat → List Nat)
    (fails cacheHit : Nat → Bool) (l : List Nat) (s : SchedState) (i : Nat)
    (h : i ∈ (l.foldl (stepJob preds fails cacheHit) s).dispatched) :
    i ∈ s.dispatched ∨ i ∈ l := by
  induction l generalizing s with
  | nil => exact Or.inl h
  | cons x xs ih =>
    rw [List.foldl_cons] at h
    rcases ih _ h with h1 | h2
    · rcases dispatched_stepJob preds fails cacheHit s x i h1 with ha | hb
      · exact Or.inl ha
      · exact Or.inr (hb ▸ List.mem_cons_self x xs)
    · exact Or.inr (List.mem_cons_of_mem _ h2)

/-- Key scheduler invariant: a job one of whose direct predecessors ends
`failed` or `blocked` is itself marked `blocked` and is never
dispatched. -/
lemma blocked_of_bad_pred (preds : Nat → List Nat)
    (fails cacheHit : Nat → Bool) (l1 l2 : List Nat) (j p : Nat)
    (hnd : (l1 ++ j :: l2).Nodup)
    (hp : p ∈ preds j) (hpl : p ∈ l1)
    (hbad :
      statusOf (runSchedule preds fails cacheHit (l1 ++ j :: l2)) p =
        .failed ∨
      statusOf (runSchedule preds fails cacheHit (l1 ++ j :: l2)) p =
        .blocked) :
    statusOf (runSchedule preds fails cacheHit (l1 ++ j :: l2)) j =
      .blocked ∧
    j ∉ (runSchedule preds fails cacheHit (l1 ++ j :: l2)).dispatched := by
  have hsplit := List.nodup_append.mp hnd
  have hjl1 : j ∉ l1 := fun hm =>
    hsplit.2.2 hm (List.mem_cons_self j l2)
  have hjl2 : j ∉ l2 := (List.nodup_cons.mp hsplit.2.1).1
  have hpj : p ≠ j := fun he => hjl1 (he ▸ hpl)
  have hpl2 : p ∉ l2 := fun hm =>
    hsplit.2.2 hpl (List.mem_cons_of_mem _ hm)
  set s1 := l1.foldl (stepJob preds fails cacheHit) ⟨[], []⟩ with hs1
  have hrun : runSchedule preds fails cacheHit (l1 ++ j :: l2) =
      l2.foldl (stepJob preds fails cacheHit)
        (stepJob preds fails cacheHit s1 j) := by
    rw [runSchedule, List.foldl_append, List.foldl_cons]
  have hps1 : statusOf (runSchedule preds fails cacheHit (l1 ++ j :: l2)) p
      = statusOf s1 p := by
    rw [hrun, statusOf_foldl_not_mem preds fails cacheHit l2 _ p hpl2,
      statusOf_stepJob_ne preds fails cacheHit s1 j p hpj]
  have hok : okStatus (statusOf s1 p) = false := by
    rcases hbad with hb | hb <;>
      (rw [hps1] at hb; rw [hb]; rfl)
  have hallf : (preds j).all (fun q => okStatus (statusOf s1 q)) = false := by
    cases hall : (preds j).all (fun q => okStatus (statusOf s1 q)) with
    | false => rfl
    | true =>
      have := List.all_eq_true.mp hall p hp
      rw [hok] at this
      cases this
  have hstep : stepJob preds fails cacheHit s1 j =
      { s1 with status := (j, JobStatus.blocked) :: s1.status } := by
    unfold stepJob
    rw [hallf]
    simp
  constructor
  · rw [hrun, statusOf_foldl_not_mem preds fails cacheHit l2 _ j hjl2, hstep]
    simp [statusOf, natLookup]
  · intro hmem
    rw [hrun] at hmem
    rcases mem_dispatched_foldl preds fails cacheHit l2 _ j hmem with h1 | h2
    · rw [hstep] at h1
      rcases mem_dispatched_foldl preds fails cacheHit l1 _ j h1
        with h3 | h4
      · cases h3
      · exact hjl1 h4
    · exact hjl2 h2

/-- C9: in every scheduler run over a duplicate-free, topologically
ordered, predecessor-closed job order, a job with a failed predecessor —
direct or transitive — is marked `blocked` and is never dispatched, so it
never transitions to `running`. -/
theorem failed_predecessor_blocked (preds : Nat → List Nat)
    (fails cacheHit : Nat → Bool) (order : List Nat)
    (hnd : order.Nodup)
    (htopo : TopoOrder preds order)
    (hclosed : ∀ j ∈ order, ∀ p ∈ preds j, p ∈ order)
    (f j : Nat) (hchain : Relation.TransGen (DirectPred preds) f j)
    (hj : j ∈ order)
    (hfail : statusOf (runSchedule preds fails cacheHit order) f =
      .failed) :
    statusOf (runSchedule preds fails cacheHit order) j = .blocked ∧
      j ∉ (runSchedule preds fails cacheHit order).dispatched := by
  revert hj
  induction hchain with
  | single hpj =>
    intro hj
    obtain ⟨l1, l2, horder⟩ := List.append_of_mem hj
    subst horder
    exact blocked_of_bad_pred preds fails cacheHit l1 l2 _ f hnd hpj
      (htopo l1 _ l2 rfl f hpj) (Or.inl hfail)
  | tail hc hpj ih =>
    intro hj
    rename_i c j'
    have hcord : c ∈ order := hclosed j' hj c hpj
    obtain ⟨hcb, -⟩ := ih hcord
    obtain ⟨l1, l2, horder⟩ := List.append_of_mem hj
    subst horder
    exact blocked_of_bad_pred preds fails cacheHit l1 l2 _ c hnd hpj
      (htopo l1 _ l2 rfl c hpj) (Or.inr hcb)

/-- Dependencies of the three-job chain used as the C9 witness. -/
def chainPreds : Nat → List Nat := fun j => if j = 0 then [] else [j - 1]

/-- The first job of the witness chain fails. -/
def chainFails : Nat → Bool := fun j => j == 0

/-- No cache hits in the witness run. -/
def noCacheHit : Nat → Bool := fun _ => false

/-- Witness for C9: in the chain `0 → 1 → 2` where job 0 fails, job 2 —
a transitive dependent of the failure — ends `blocked` and is never
dispatched. -/
theorem failed_predecessor_blocked_witness :
    statusOf (runSchedule chainPreds chainFails noCacheHit [0, 1, 2]) 2 =
      .blocked ∧
    2 ∉ (runSchedule chainPreds chainFails noCacheHit [0, 1, 2]).dispatched :=
  failed_predecessor_blocked chainPreds chainFails noCacheHit [0, 1, 2]
    (by decide)
    (by
      intro l1 j l2 h p hp
      rcases l1 with _ | ⟨a, l1⟩
      · simp only [List.nil_append, List.cons.injEq] at h
        obtain ⟨h0, -⟩ := h
        subst h0
        simp [chainPreds] at hp
      · rcases l1 with _ | ⟨b, l1⟩
        · simp only [List.cons_append, List.nil_append,
            List.cons.injEq] at h
          obtain ⟨ha, h1, -⟩ := h
          subst ha h1
          simp [chainPreds] at hp
          simp [hp]
        · rcases l1 with _ | ⟨c, l1⟩
          · simp only [List.cons_append, List.nil_append,
              List.cons.injEq] at h
            obtain ⟨ha, hb, h2, -⟩ := h
            subst ha hb h2
            simp [chainPreds] at hp
            simp [hp]
          · simp only [List.cons_append, List.cons.injEq] at h
            obtain ⟨-, -, -, habs⟩ := h
            exact absurd habs.symm (List.append_ne_nil_of_right_ne_nil _
              (List.cons_ne_nil _ _)))
    (by decide) 0 2
    (@Relation.TransGen.tail Nat (DirectPred chainPreds) 0 1 2
      (Relation.TransGen.single
        (by show (0 : Nat) ∈ chainPreds 1; decide))
      (by show (1 : Nat) ∈ chainPreds 2; decide))
    (by decide) (by decide)

end KwDagger
